import Mathlib

/-!
Shallow embedding of the anomaly-detection pipeline in
`src/data_processor.py` (functions `load_data` and `detect_anomalies`)
together with the run-level wiring in `src/app.py`.

Modelling conventions:
* A cell is `Option Value`; `none` is pandas `NaN` (an absent cell).
* Python/NumPy floats are modelled by `ℚ`; `np.percentile` with its default
  linear interpolation is embedded exactly over `ℚ`.
* The sklearn `IsolationForest(contamination='auto', random_state=42)`
  fit-and-score step is third-party library code; it is modelled by an
  abstract oracle `o : List ℚ → Option (List ℚ)` mapping the non-absent
  sample list to its anomaly scores, with `none` standing for the
  `ValueError` branch caught at `data_processor.py:58`.  The seed is fixed,
  so one pipeline run corresponds to one fixed oracle.
-/

set_option allowUnsafeReducibility true

attribute [local semireducible] Rat.mul Rat.add Rat.sub Rat.inv

/-- Values stored in dataset cells: Python numbers or strings. -/
inductive Value where
  | num (q : ℚ)
  | str (s : String)
deriving DecidableEq

/-- A named column: ordered cells, `none` marking an absent cell. -/
structure Column where
  name : String
  cells : List (Option Value)
deriving DecidableEq

/-- A dataset is an ordered sequence of named columns (a pandas DataFrame). -/
structure Dataset where
  cols : List Column
deriving DecidableEq

/-- Number of rows, `len(df)`: all columns of a well-formed dataset have this
length. -/
def Dataset.nrows (df : Dataset) : ℕ :=
  match df.cols with
  | [] => 0
  | c :: _ => c.cells.length

/-- Well-formedness of a DataFrame as produced by `pd.read_csv`: all columns
are row-aligned and column names are unique. -/
def Dataset.WF (df : Dataset) : Prop :=
  (∀ c ∈ df.cols, c.cells.length = df.nrows) ∧ (df.cols.map Column.name).Nodup

instance (df : Dataset) : Decidable df.WF := by
  unfold Dataset.WF; infer_instance

/-- One anomaly dict appended to the `anomalies` list in `detect_anomalies`.
The missing-values dict has no `original_indices` key, hence the `Option`. -/
structure AnomalyRecord where
  type : String
  column : String
  description : String
  sample_values : List (Option Value)
  original_indices : Option (List ℕ)
deriving DecidableEq

/-- Cells of a list paired with their row indices, starting at `k`. -/
def idxCells : ℕ → List (Option Value) → List (ℕ × Option Value)
  | _, [] => []
  | k, x :: xs => (k, x) :: idxCells (k + 1) xs

/-- Row indices of the absent cells of a column, ascending:
`df[df[col].isnull()].index.tolist()`. -/
def nullIndices (c : Column) : List ℕ :=
  (idxCells 0 c.cells).filterMap (fun p =>
    match p.2 with
    | none => some p.1
    | some _ => none)

/-- Non-absent numeric samples of a column with their original row indices:
`df[col].dropna()` keeping the index. -/
def nonNullIdx (c : Column) : List (ℕ × ℚ) :=
  (idxCells 0 c.cells).filterMap (fun p =>
    match p.2 with
    | some (Value.num q) => some (p.1, q)
    | _ => none)

/-- The non-absent numeric values of a column, `df[col].dropna().values`. -/
def valsOf (c : Column) : List ℚ :=
  (nonNullIdx c).map Prod.snd

/-- Column is selected by `df.select_dtypes(include=np.number)`: every cell is
a number or absent (a column holding any string has object dtype). -/
def isNumericCol (c : Column) : Bool :=
  c.cells.all (fun cell =>
    match cell with
    | none => true
    | some (Value.num _) => true
    | some (Value.str _) => false)

/-- Floor of a rational as an integer (the denominator is positive, and
integer division in Lean is Euclidean, so this is the true floor). -/
def ratFloor (x : ℚ) : ℤ := x.num / (x.den : ℤ)

/-- Ceiling of a rational as an integer. -/
def ratCeil (x : ℚ) : ℤ := -ratFloor (-x)

/-- Round to the nearest integer, ties to even (Python float formatting). -/
def roundHalfEven (x : ℚ) : ℤ :=
  let f : ℤ := ratFloor x
  let r : ℚ := x - f
  if r < 1 / 2 then f
  else if 1 / 2 < r then f + 1
  else if f % 2 = 0 then f else f + 1

/-- Format a nonnegative rational with exactly two decimals, Python
`f"{x:.2f}"`. -/
def fmtPct2 (q : ℚ) : String :=
  let c : ℤ := roundHalfEven (q * 100)
  let ip : ℤ := c / 100
  let fr : ℤ := c % 100
  toString ip ++ "." ++ (if fr < 10 then "0" ++ toString fr else toString fr)

/-- The 5th percentile of a score list, `np.percentile(scores, 5)` with the
default linear interpolation, over exact rationals. -/
def percentile5 (l : List ℚ) : ℚ :=
  let s := List.insertionSort (fun a b : ℚ => a ≤ b) l
  let n := l.length
  let h : ℚ := ((n : ℚ) - 1) * 5 / 100
  let lo : ℕ := (ratFloor h).toNat
  let hi : ℕ := (ratCeil h).toNat
  s.getD lo 0 + (h - (lo : ℚ)) * (s.getD hi 0 - s.getD lo 0)

/-- The missing-values dict built at `data_processor.py:28-33`: the absent
count, the percentage of `len(df)` formatted to two decimals, and the first
three absent row indices (the code stores them under the `sample_values`
key; the dict has no `original_indices` key). -/
def mkMissingRecord (n : ℕ) (c : Column) : AnomalyRecord :=
  { type := "Missing Values"
    column := c.name
    description :=
      toString (nullIndices c).length ++ " (" ++
        fmtPct2 ((((nullIndices c).length : ℚ) / (n : ℚ)) * 100) ++
        "%) missing values found."
    sample_values :=
      ((nullIndices c).take 3).map (fun i : ℕ => some (Value.num (i : ℚ)))
    original_indices := none }

/-- Missing-values check for one column (`data_processor.py:24-33`): emit the
dict exactly when the column has at least one absent cell. -/
def missingRecordFor (n : ℕ) (c : Column) : Option AnomalyRecord :=
  if nullIndices c = [] then none else some (mkMissingRecord n c)

/-- Samples flagged at `data_processor.py:47`: the (indexed sample, score)
pairs whose score is strictly below the 5th percentile of the scores. -/
def flaggedOf (nn : List (ℕ × ℚ)) (scores : List ℚ) : List ((ℕ × ℚ) × ℚ) :=
  (nn.zip scores).filter (fun pr => pr.2 < percentile5 scores)

/-- The outlier dict built at `data_processor.py:51-57`: the first three
flagged samples' values and original row indices. -/
def mkOutlierRecord (c : Column) (flagged : List ((ℕ × ℚ) × ℚ)) :
    AnomalyRecord :=
  { type := "Outlier (Numerical)"
    column := c.name
    description :=
      "Potential outliers detected using Isolation Forest. Score below 5th percentile."
    sample_values := (flagged.take 3).map (fun pr => some (Value.num pr.1.2))
    original_indices := some ((flagged.take 3).map (fun pr => pr.1.1)) }

/-- Outlier check for one numeric column (`data_processor.py:37-60`): require
more than one distinct non-absent value and at least two samples, score via
the oracle (IsolationForest with fixed seed; `none` is the caught
`ValueError`), flag scores strictly below the 5th percentile, and report the
flagged samples' original row indices and values. -/
def outlierRecordFor (o : List ℚ → Option (List ℚ)) (c : Column) :
    Option AnomalyRecord :=
  if 1 < (valsOf c).dedup.length then
    if 1 < (nonNullIdx c).length then
      match o (valsOf c) with
      | none => none
      | some scores =>
        if flaggedOf (nonNullIdx c) scores = [] then none
        else some (mkOutlierRecord c (flaggedOf (nonNullIdx c) scores))
    else none
  else none

/-- Class `[a-zA-Z0-9._%+-]` of the email regex's local part. -/
def isLocalChar (ch : Char) : Bool :=
  ch.isAlpha || ch.isDigit || ch = '.' || ch = '_' || ch = '%' || ch = '+' || ch = '-'

/-- Class `[a-zA-Z0-9.-]` of the email regex's domain part. -/
def isDomainChar (ch : Char) : Bool :=
  ch.isAlpha || ch.isDigit || ch = '.' || ch = '-'

/-- Split a character list at the first occurrence of `c`. -/
def breakAt (c : Char) : List Char → Option (List Char × List Char)
  | [] => none
  | x :: xs =>
    if x = c then some ([], xs)
    else
      match breakAt c xs with
      | some (a, b) => some (x :: a, b)
      | none => none

/-- The anchored regex `^[a-zA-Z0-9._%+-]+@[a-zA-Z0-9.-]+\.[a-zA-Z]\x7b2,\x7d$`
of `data_processor.py:64`.  Neither character class contains `@`, and the
trailing `[a-zA-Z]\x7b2,\x7d$` block contains no dot, so a string matches iff
it splits at its first `@` into a nonempty local part over the local class and
a domain whose text before its last dot is a nonempty string over the domain
class and whose text after its last dot is at least two letters. -/
def emailMatch (s : String) : Bool :=
  match breakAt '@' s.toList with
  | none => false
  | some (lo, rest) =>
    !lo.isEmpty && lo.all isLocalChar &&
      (match breakAt '.' rest.reverse with
       | none => false
       | some (tR, dR) =>
         !(dR.reverse).isEmpty && (dR.reverse).all isDomainChar &&
           decide (2 ≤ tR.length) && (tR.reverse).all Char.isAlpha)

/-- Python `str()` applied to a cell by `.astype(str)`: `NaN` becomes the
string `"nan"`. -/
def astypeStr (cell : Option Value) : String :=
  match cell with
  | none => "nan"
  | some (Value.str s) => s
  | some (Value.num q) => toString q

/-- The rows of the email column failing the pattern
(`df[~df['email'].astype(str).str.contains(...)]`), with raw cell values. -/
def badEmails (c : Column) : List (ℕ × Option Value) :=
  (idxCells 0 c.cells).filter (fun p => !emailMatch (astypeStr p.2))

/-- Pass 1 of `detect_anomalies`: missing values, over all columns in order. -/
def missingPass (df : Dataset) : List AnomalyRecord :=
  df.cols.filterMap (missingRecordFor df.nrows)

/-- Pass 2 of `detect_anomalies`: IsolationForest outliers over the numeric
columns in order. -/
def outlierPass (o : List ℚ → Option (List ℚ)) (df : Dataset) :
    List AnomalyRecord :=
  df.cols.filterMap (fun c => if isNumericCol c then outlierRecordFor o c else none)

/-- The format-violation dict built at `data_processor.py:66-72`. -/
def mkFormatRecord (c : Column) : AnomalyRecord :=
  { type := "Invalid Format (Email)"
    column := "email"
    description :=
      toString (badEmails c).length ++ " rows with invalid email format found."
    sample_values := ((badEmails c).take 3).map (fun p => p.2)
    original_indices := some (((badEmails c).take 3).map (fun p => p.1)) }

/-- Pass 3 of `detect_anomalies`: email format check
(`data_processor.py:63-72`), applied when a column is literally named
`email`. -/
def formatPass (df : Dataset) : List AnomalyRecord :=
  match df.cols.find? (fun c => c.name = "email") with
  | none => []
  | some c => if badEmails c = [] then [] else [mkFormatRecord c]

/-- The whole of `detect_anomalies`: the three passes append their dicts to
one `anomalies` list in program order. -/
def detect_anomalies (o : List ℚ → Option (List ℚ)) (df : Dataset) :
    List AnomalyRecord :=
  missingPass df ++ outlierPass o df ++ formatPass df

/-- A raw input source as seen by `load_data`.  Modelled from the spec:
`pd.read_csv` is third-party code; its documented behavior is that a missing
file raises `FileNotFoundError`, malformed input raises a parser error, an
empty source raises `EmptyDataError`, and otherwise a full DataFrame is
produced. -/
inductive RawSource where
  | notFound
  | unparsable
  | emptySource
  | wellFormed (df : Dataset)

/-- Modelled from the spec: `pd.read_csv` (external library), all-or-nothing:
either the whole parsed dataset or a raised error, never a partial one. -/
def read_csv : RawSource → Except String Dataset
  | RawSource.notFound => Except.error "FileNotFoundError"
  | RawSource.unparsable => Except.error "ParserError"
  | RawSource.emptySource => Except.error "EmptyDataError"
  | RawSource.wellFormed df => Except.ok df

/-- The function `load_data` (`data_processor.py:6-12`): it catches
`FileNotFoundError` and returns `None`; any other parse error propagates
(modelled as `Except.error`). -/
def load_data (s : RawSource) : Except String (Option Dataset) :=
  match read_csv s with
  | Except.ok df => Except.ok (some df)
  | Except.error e =>
    if e = "FileNotFoundError" then Except.ok none else Except.error e

/-- One run as wired in `src/app.py`: load, then detect; a `None` dataset is
reported as a load error and stops the run (`app.py:31-33`). -/
def runPipeline (o : List ℚ → Option (List ℚ)) (s : RawSource) :
    Except String (List AnomalyRecord) :=
  match load_data s with
  | Except.ok (some df) => Except.ok (detect_anomalies o df)
  | Except.ok none => Except.error "LoadError"
  | Except.error e => Except.error e

/-- Rank of a record by the pass that emitted it, in program order. -/
def passRank (r : AnomalyRecord) : ℕ :=
  if r.type = "Missing Values" then 0
  else if r.type = "Outlier (Numerical)" then 1
  else 2

/-- Report order relative to a dataset: earlier pass first, and within one
pass earlier column first. -/
def reportLE (df : Dataset) (a b : AnomalyRecord) : Prop :=
  passRank a < passRank b ∨
    (passRank a = passRank b ∧
      (df.cols.map Column.name).indexOf a.column ≤
        (df.cols.map Column.name).indexOf b.column)

/-- Boolean test that a record has the given type and column name. -/
def hasTypeCol (t cname : String) (r : AnomalyRecord) : Bool :=
  decide (r.type = t) && decide (r.column = cname)

/-- A concrete oracle for witnesses: scores are the negated samples, so
larger samples score lower (more anomalous), as with an isolation forest on
a one-peak distribution. -/
def negOracle : List ℚ → Option (List ℚ) :=
  fun l => some (l.map (fun q => -q))

/-- An oracle that always fails, standing for a model that raises
`ValueError` on every input. -/
def failOracle : List ℚ → Option (List ℚ) :=
  fun _ => none

/-- The spec's missing-values example: 10 rows, 3 absent cells. -/
def colMissEx : Column :=
  ⟨"a", [some (Value.num 1), none, some (Value.num 2), none, some (Value.num 3),
         none, some (Value.num 4), some (Value.num 5), some (Value.num 6),
         some (Value.num 7)]⟩

/-- The spec's outlier example column `[1,2,2,3,2,1,2,3,2,100]`. -/
def colOutEx : Column :=
  ⟨"n", [some (Value.num 1), some (Value.num 2), some (Value.num 2),
         some (Value.num 3), some (Value.num 2), some (Value.num 1),
         some (Value.num 2), some (Value.num 3), some (Value.num 2),
         some (Value.num 100)]⟩

/-- The spec's constant numeric column: ten copies of 5. -/
def colConstEx : Column :=
  ⟨"k", List.replicate 10 (some (Value.num 5))⟩

/-- The spec's email example column `["a@b.com","not-an-email","c@d.org"]`. -/
def colEmailEx : Column :=
  ⟨"email", [some (Value.str "a@b.com"), some (Value.str "not-an-email"),
             some (Value.str "c@d.org")]⟩

/-- An email column whose only non-absent value is a well-formed address and
whose second cell is absent. -/
def colEmailNaN : Column :=
  ⟨"email", [some (Value.str "a@b.com"), none]⟩

/-- A dataset combining the example columns (all of length 10 is not needed;
each witness uses the dataset whose columns are row-aligned). -/
def dfOutEx : Dataset := ⟨[colOutEx]⟩

/-- Single-column dataset for the missing-values witness. -/
def dfMissEx : Dataset := ⟨[colMissEx]⟩

/-- Single-column dataset for the constant-column witness. -/
def dfConstEx : Dataset := ⟨[colConstEx]⟩

/-- Single-column dataset for the email witness. -/
def dfEmailEx : Dataset := ⟨[colEmailEx]⟩

/-- Single-column dataset for the email-with-absent-cell counterexample. -/
def dfEmailNaN : Dataset := ⟨[colEmailNaN]⟩

/-- A zero-row dataset with one (empty) column. -/
def dfZeroRows : Dataset := ⟨[⟨"a", []⟩]⟩

/-- A numeric column with both an absent cell and an outlier, so that two
detectors each contribute a record for the same column. -/
def colMixEx : Column :=
  ⟨"m", [some (Value.num 1), some (Value.num 2), some (Value.num 2),
         some (Value.num 3), some (Value.num 2), some (Value.num 1),
         some (Value.num 2), some (Value.num 3), some (Value.num 2),
         some (Value.num 100), none]⟩

/-- Single-column dataset for the ordering witness. -/
def dfMixEx : Dataset := ⟨[colMixEx]⟩

/-! ### Lemmas about indexed cells -/

theorem idxCells_ge (k : ℕ) (l : List (Option Value)) :
    ∀ p ∈ idxCells k l, k ≤ p.1 := by
  induction l generalizing k with
  | nil => intro p hp; simp [idxCells] at hp
  | cons x xs ih =>
    intro p hp
    simp only [idxCells, List.mem_cons] at hp
    rcases hp with rfl | hp
    · exact le_refl k
    · exact le_trans (Nat.le_succ k) (ih (k + 1) p hp)

theorem idxCells_pairwise (k : ℕ) (l : List (Option Value)) :
    (idxCells k l).Pairwise (fun a b => a.1 < b.1) := by
  induction l generalizing k with
  | nil => simp [idxCells]
  | cons x xs ih =>
    simp only [idxCells]
    refine List.Pairwise.cons ?_ (ih (k + 1))
    intro p hp
    exact lt_of_lt_of_le (Nat.lt_succ_self k) (idxCells_ge (k + 1) xs p hp)

theorem idxCells_lookup (k : ℕ) (l : List (Option Value)) :
    ∀ p ∈ idxCells k l, l.get? (p.1 - k) = some p.2 := by
  induction l generalizing k with
  | nil => intro p hp; simp [idxCells] at hp
  | cons x xs ih =>
    intro p hp
    simp only [idxCells, List.mem_cons] at hp
    rcases hp with rfl | hp
    · simp
    · have hk := idxCells_ge (k + 1) xs p hp
      have h1 := ih (k + 1) p hp
      have h2 : p.1 - k = (p.1 - (k + 1)) + 1 := by omega
      rw [h2]
      simpa using h1

theorem idxCells_complete (k : ℕ) (l : List (Option Value)) :
    ∀ j x, l.get? j = some x → (k + j, x) ∈ idxCells k l := by
  induction l generalizing k with
  | nil => intro j x hj; simp at hj
  | cons y ys ih =>
    intro j x hj
    cases j with
    | zero =>
      simp only [List.get?_cons_zero, Option.some.injEq] at hj
      subst hj
      simp [idxCells]
    | succ j' =>
      simp only [List.get?_cons_succ] at hj
      have := ih (k + 1) j' x hj
      simp only [idxCells, List.mem_cons]
      right
      have harith : k + (j' + 1) = (k + 1) + j' := by omega
      rw [harith]
      exact this

theorem idxCells_length (k : ℕ) (l : List (Option Value)) :
    (idxCells k l).length = l.length := by
  induction l generalizing k with
  | nil => rfl
  | cons x xs ih => simp [idxCells, ih]

/-! ### Lemmas about `nullIndices`, `nonNullIdx`, `badEmails` -/

theorem nullIndices_pairwise (c : Column) :
    (nullIndices c).Pairwise (fun a b => a < b) := by
  unfold nullIndices
  refine List.Pairwise.filterMap _ ?_ (idxCells_pairwise 0 c.cells)
  intro a a' hlt b hb b' hb'
  rcases a with ⟨i, cell⟩
  rcases a' with ⟨i', cell'⟩
  cases cell with
  | some v => simp at hb
  | none =>
    cases cell' with
    | some v => simp at hb'
    | none =>
      simp only [Option.mem_def, Option.some.injEq] at hb hb'
      subst hb
      subst hb'
      exact hlt

theorem nullIndices_lookup (c : Column) :
    ∀ i ∈ nullIndices c, c.cells.get? i = some none := by
  intro i hi
  unfold nullIndices at hi
  rw [List.mem_filterMap] at hi
  obtain ⟨p, hp, hmatch⟩ := hi
  rcases p with ⟨j, cell⟩
  cases cell with
  | some v => simp at hmatch
  | none =>
    simp only [Option.some.injEq] at hmatch
    have := idxCells_lookup 0 c.cells (j, none) hp
    simp only [Nat.sub_zero] at this
    rw [← hmatch]
    exact this

theorem nullIndices_complete (c : Column) :
    ∀ i, c.cells.get? i = some none → i ∈ nullIndices c := by
  intro i hi
  unfold nullIndices
  rw [List.mem_filterMap]
  refine ⟨(i, none), ?_, rfl⟩
  have := idxCells_complete 0 c.cells i none hi
  simpa using this

theorem nonNullIdx_pairwise (c : Column) :
    (nonNullIdx c).Pairwise (fun a b => a.1 < b.1) := by
  unfold nonNullIdx
  refine List.Pairwise.filterMap _ ?_ (idxCells_pairwise 0 c.cells)
  intro a a' hlt b hb b' hb'
  rcases a with ⟨i, cell⟩
  rcases a' with ⟨i', cell'⟩
  have hb1 : b.1 = i := by
    cases cell with
    | none => simp at hb
    | some v =>
      cases v with
      | num q =>
        simp only [Option.mem_def, Option.some.injEq] at hb
        rw [← hb]
      | str s => simp at hb
  have hb2 : b'.1 = i' := by
    cases cell' with
    | none => simp at hb'
    | some v =>
      cases v with
      | num q =>
        simp only [Option.mem_def, Option.some.injEq] at hb'
        rw [← hb']
      | str s => simp at hb'
  rw [hb1, hb2]
  exact hlt

theorem nonNullIdx_lookup (c : Column) :
    ∀ p ∈ nonNullIdx c, c.cells.get? p.1 = some (some (Value.num p.2)) := by
  intro p hp
  unfold nonNullIdx at hp
  rw [List.mem_filterMap] at hp
  obtain ⟨q, hq, hmatch⟩ := hp
  rcases q with ⟨j, cell⟩
  cases cell with
  | none => simp at hmatch
  | some v =>
    cases v with
    | str s => simp at hmatch
    | num r =>
      simp only [Option.some.injEq] at hmatch
      have := idxCells_lookup 0 c.cells (j, some (Value.num r)) hq
      simp only [Nat.sub_zero] at this
      rw [← hmatch]
      exact this

theorem badEmails_lookup (c : Column) :
    ∀ p ∈ badEmails c,
      c.cells.get? p.1 = some p.2 ∧ emailMatch (astypeStr p.2) = false := by
  intro p hp
  unfold badEmails at hp
  rw [List.mem_filter] at hp
  obtain ⟨hmem, hpred⟩ := hp
  have := idxCells_lookup 0 c.cells p hmem
  simp only [Nat.sub_zero] at this
  refine ⟨this, ?_⟩
  simpa using hpred

theorem badEmails_complete (c : Column) :
    ∀ i x, c.cells.get? i = some x → emailMatch (astypeStr x) = false →
      (i, x) ∈ badEmails c := by
  intro i x hi hx
  unfold badEmails
  rw [List.mem_filter]
  constructor
  · have := idxCells_complete 0 c.cells i x hi
    simpa using this
  · simp [hx]

theorem badEmails_pairwise (c : Column) :
    (badEmails c).Pairwise (fun a b => a.1 < b.1) := by
  unfold badEmails
  exact List.Pairwise.filter _ (idxCells_pairwise 0 c.cells)

/-! ### Shape and membership lemmas for the three passes -/

theorem missingRecordFor_shape {n : ℕ} {c : Column} {r : AnomalyRecord}
    (h : missingRecordFor n c = some r) :
    nullIndices c ≠ [] ∧ r = mkMissingRecord n c := by
  unfold missingRecordFor at h
  by_cases h0 : nullIndices c = []
  · rw [if_pos h0] at h; cases h
  · rw [if_neg h0] at h
    exact ⟨h0, (Option.some.injEq _ _ ▸ h).symm⟩

theorem missingRecordFor_of_ne {n : ℕ} {c : Column}
    (h : nullIndices c ≠ []) :
    missingRecordFor n c = some (mkMissingRecord n c) := by
  unfold missingRecordFor
  rw [if_neg h]

theorem outlierRecordFor_shape {o : List ℚ → Option (List ℚ)} {c : Column}
    {r : AnomalyRecord} (h : outlierRecordFor o c = some r) :
    1 < (valsOf c).dedup.length ∧ 1 < (nonNullIdx c).length ∧
      ∃ scores, o (valsOf c) = some scores ∧
        flaggedOf (nonNullIdx c) scores ≠ [] ∧
        r = mkOutlierRecord c (flaggedOf (nonNullIdx c) scores) := by
  unfold outlierRecordFor at h
  by_cases h1 : 1 < (valsOf c).dedup.length
  · rw [if_pos h1] at h
    by_cases h2 : 1 < (nonNullIdx c).length
    · rw [if_pos h2] at h
      refine ⟨h1, h2, ?_⟩
      cases ho : o (valsOf c) with
      | none => rw [ho] at h; cases h
      | some scores =>
        rw [ho] at h
        have h' :
            (if flaggedOf (nonNullIdx c) scores = [] then none
             else some (mkOutlierRecord c (flaggedOf (nonNullIdx c) scores))) =
              some r := h
        by_cases hf : flaggedOf (nonNullIdx c) scores = []
        · rw [if_pos hf] at h'; cases h'
        · rw [if_neg hf] at h'
          exact ⟨scores, rfl, hf, (Option.some.injEq _ _ ▸ h').symm⟩
    · rw [if_neg h2] at h; cases h
  · rw [if_neg h1] at h; cases h

theorem outlierRecordFor_of_conditions {o : List ℚ → Option (List ℚ)}
    {c : Column} {scores : List ℚ}
    (h1 : 1 < (valsOf c).dedup.length)
    (ho : o (valsOf c) = some scores)
    (hf : flaggedOf (nonNullIdx c) scores ≠ []) :
    outlierRecordFor o c = some (mkOutlierRecord c (flaggedOf (nonNullIdx c) scores)) := by
  have h2 : 1 < (nonNullIdx c).length := by
    have hsub := List.dedup_sublist (valsOf c)
    have hlen := hsub.length_le
    have : (valsOf c).length = (nonNullIdx c).length := by
      unfold valsOf
      exact List.length_map _ _
    omega
  unfold outlierRecordFor
  rw [if_pos h1, if_pos h2, ho]
  show (if flaggedOf (nonNullIdx c) scores = [] then none
        else some (mkOutlierRecord c (flaggedOf (nonNullIdx c) scores))) =
      some (mkOutlierRecord c (flaggedOf (nonNullIdx c) scores))
  rw [if_neg hf]

theorem outlierRecordFor_none_of_fail {o : List ℚ → Option (List ℚ)}
    {c : Column} (ho : o (valsOf c) = none) :
    outlierRecordFor o c = none := by
  unfold outlierRecordFor
  by_cases h1 : 1 < (valsOf c).dedup.length
  · rw [if_pos h1]
    by_cases h2 : 1 < (nonNullIdx c).length
    · rw [if_pos h2, ho]
    · rw [if_neg h2]
  · rw [if_neg h1]

theorem mem_missingPass {df : Dataset} {r : AnomalyRecord} :
    r ∈ missingPass df ↔
      ∃ c ∈ df.cols, missingRecordFor df.nrows c = some r := by
  unfold missingPass
  exact List.mem_filterMap

theorem mem_outlierPass {o : List ℚ → Option (List ℚ)} {df : Dataset}
    {r : AnomalyRecord} :
    r ∈ outlierPass o df ↔
      ∃ c ∈ df.cols, isNumericCol c = true ∧ outlierRecordFor o c = some r := by
  unfold outlierPass
  rw [List.mem_filterMap]
  constructor
  · rintro ⟨c, hc, hr⟩
    by_cases hn : isNumericCol c
    · rw [if_pos hn] at hr
      exact ⟨c, hc, hn, hr⟩
    · rw [if_neg hn] at hr; cases hr
  · rintro ⟨c, hc, hn, hr⟩
    exact ⟨c, hc, by rw [if_pos hn]; exact hr⟩

theorem mem_formatPass {df : Dataset} {r : AnomalyRecord} :
    r ∈ formatPass df ↔
      ∃ c, df.cols.find? (fun c' => c'.name = "email") = some c ∧
        badEmails c ≠ [] ∧ r = mkFormatRecord c := by
  unfold formatPass
  constructor
  · intro hr
    cases hfind : df.cols.find? (fun c' => c'.name = "email") with
    | none => rw [hfind] at hr; cases hr
    | some c =>
      rw [hfind] at hr
      have hr' : r ∈ (if badEmails c = [] then [] else [mkFormatRecord c]) := hr
      by_cases hb : badEmails c = []
      · rw [if_pos hb] at hr'; cases hr'
      · rw [if_neg hb] at hr'
        simp only [List.mem_singleton] at hr'
        exact ⟨c, rfl, hb, hr'⟩
  · rintro ⟨c, hfind, hb, hr⟩
    rw [hfind]
    show r ∈ (if badEmails c = [] then [] else [mkFormatRecord c])
    rw [if_neg hb]
    simp [hr]

theorem missingPass_types {df : Dataset} {r : AnomalyRecord}
    (h : r ∈ missingPass df) : r.type = "Missing Values" := by
  obtain ⟨c, _, hr⟩ := mem_missingPass.mp h
  obtain ⟨_, rfl⟩ := missingRecordFor_shape hr
  rfl

theorem outlierPass_types {o : List ℚ → Option (List ℚ)} {df : Dataset}
    {r : AnomalyRecord} (h : r ∈ outlierPass o df) :
    r.type = "Outlier (Numerical)" := by
  obtain ⟨c, _, _, hr⟩ := mem_outlierPass.mp h
  obtain ⟨_, _, scores, _, _, rfl⟩ := outlierRecordFor_shape hr
  rfl

theorem formatPass_types {df : Dataset} {r : AnomalyRecord}
    (h : r ∈ formatPass df) : r.type = "Invalid Format (Email)" := by
  obtain ⟨c, _, _, rfl⟩ := mem_formatPass.mp h
  rfl

theorem missingPass_columns {df : Dataset} {r : AnomalyRecord}
    (h : r ∈ missingPass df) : ∃ c ∈ df.cols, r.column = c.name := by
  obtain ⟨c, hc, hr⟩ := mem_missingPass.mp h
  obtain ⟨_, rfl⟩ := missingRecordFor_shape hr
  exact ⟨c, hc, rfl⟩

theorem outlierPass_columns {o : List ℚ → Option (List ℚ)} {df : Dataset}
    {r : AnomalyRecord} (h : r ∈ outlierPass o df) :
    ∃ c ∈ df.cols, r.column = c.name := by
  obtain ⟨c, hc, _, hr⟩ := mem_outlierPass.mp h
  obtain ⟨_, _, scores, _, _, rfl⟩ := outlierRecordFor_shape hr
  exact ⟨c, hc, rfl⟩

theorem formatPass_columns {df : Dataset} {r : AnomalyRecord}
    (h : r ∈ formatPass df) : ∃ c ∈ df.cols, r.column = c.name := by
  obtain ⟨c, hfind, _, rfl⟩ := mem_formatPass.mp h
  refine ⟨c, List.mem_of_find?_eq_some hfind, ?_⟩
  have := List.find?_some hfind
  simp only [decide_eq_true_eq] at this
  exact this.symm

/-! ### Counting and uniqueness helpers -/

theorem name_inj {df : Dataset} (hnd : (df.cols.map Column.name).Nodup)
    {c c' : Column} (hc : c ∈ df.cols) (hc' : c' ∈ df.cols)
    (h : c.name = c'.name) : c = c' :=
  List.inj_on_of_nodup_map hnd hc hc' h

theorem countP_filterMap_single
    (f : Column → Option AnomalyRecord) (p : AnomalyRecord → Bool)
    (c : Column) (hsome : ∃ r, f c = some r) :
    ∀ cols : List Column, c ∈ cols → (cols.map Column.name).Nodup →
      (∀ c' ∈ cols, ∀ r, f c' = some r → (p r = true ↔ c'.name = c.name)) →
      List.countP p (cols.filterMap f) = 1 := by
  intro cols
  induction cols with
  | nil => intro h; cases h
  | cons c0 rest ih =>
    intro hmem hnd hf
    rw [List.map_cons, List.nodup_cons] at hnd
    obtain ⟨hnotin, hndrest⟩ := hnd
    rcases List.mem_cons.mp hmem with heq | hcrest
    · subst heq
      obtain ⟨r, hr⟩ := hsome
      rw [List.filterMap_cons_some hr, List.countP_cons]
      have hp : p r = true :=
        (hf c (List.mem_cons_self _ _) r hr).mpr rfl
      rw [if_pos hp]
      have hzero : List.countP p (rest.filterMap f) = 0 := by
        rw [List.countP_eq_zero]
        intro a ha
        rw [List.mem_filterMap] at ha
        obtain ⟨c', hc', hfc'⟩ := ha
        intro hpa
        have := (hf c' (List.mem_cons_of_mem _ hc') a hfc').mp hpa
        exact hnotin (this ▸ List.mem_map_of_mem Column.name hc')
      omega
    · have hstep :
          List.countP p ((c0 :: rest).filterMap f) =
            List.countP p (rest.filterMap f) := by
        cases hfc0 : f c0 with
        | none => rw [List.filterMap_cons_none hfc0]
        | some r0 =>
          rw [List.filterMap_cons_some hfc0, List.countP_cons]
          have hne : c0.name ≠ c.name := by
            intro habs
            exact hnotin (habs ▸ List.mem_map_of_mem Column.name hcrest)
          have hp0 : ¬p r0 = true := by
            intro hp0
            exact hne ((hf c0 (List.mem_cons_self _ _) r0 hfc0).mp hp0)
          rw [if_neg hp0, Nat.add_zero]
      rw [hstep]
      exact ih hcrest hndrest
        (fun c' hc' r hr => hf c' (List.mem_cons_of_mem _ hc') r hr)

theorem countP_eq_zero_of_types {l : List AnomalyRecord}
    {p : AnomalyRecord → Bool} (h : ∀ r ∈ l, p r = false) :
    List.countP p l = 0 := by
  rw [List.countP_eq_zero]
  intro a ha
  rw [h a ha]
  exact Bool.false_ne_true

theorem find?_name_email {df : Dataset}
    (hnd : (df.cols.map Column.name).Nodup) {c : Column}
    (hc : c ∈ df.cols) (hn : c.name = "email") :
    df.cols.find? (fun c' => c'.name = "email") = some c := by
  cases hfind : df.cols.find? (fun c' => decide (c'.name = "email")) with
  | none =>
    rw [List.find?_eq_none] at hfind
    have := hfind c hc
    simp [hn] at this
  | some c2 =>
    have hmem2 := List.mem_of_find?_eq_some hfind
    have hp := List.find?_some hfind
    simp only [decide_eq_true_eq] at hp
    have hceq : c = c2 := name_inj hnd hc hmem2 (by rw [hn, hp])
    exact congrArg some hceq.symm

theorem hasTypeCol_true_iff {t cname : String} {r : AnomalyRecord} :
    hasTypeCol t cname r = true ↔ (r.type = t ∧ r.column = cname) := by
  unfold hasTypeCol
  simp

/-! ### Pass rank evaluation -/

theorem passRank_of_missing {r : AnomalyRecord}
    (h : r.type = "Missing Values") : passRank r = 0 := by
  simp [passRank, h]

theorem passRank_of_outlier {r : AnomalyRecord}
    (h : r.type = "Outlier (Numerical)") : passRank r = 1 := by
  simp [passRank, h]

theorem passRank_of_format {r : AnomalyRecord}
    (h : r.type = "Invalid Format (Email)") : passRank r = 2 := by
  simp [passRank, h]

/-! ### Report-level lemmas -/

theorem hasTypeCol_false_of_type {t t' cname : String} {r : AnomalyRecord}
    (h : r.type = t') (hne : t' ≠ t) : hasTypeCol t cname r = false := by
  unfold hasTypeCol
  rw [h, decide_eq_false hne, Bool.false_and]

theorem mem_detect_iff {o : List ℚ → Option (List ℚ)} {df : Dataset}
    {r : AnomalyRecord} :
    r ∈ detect_anomalies o df ↔
      r ∈ missingPass df ∨ r ∈ outlierPass o df ∨ r ∈ formatPass df := by
  unfold detect_anomalies
  simp [List.mem_append, or_assoc]

theorem countP_detect_missing {o : List ℚ → Option (List ℚ)} {df : Dataset}
    {c : Column} (hnd : (df.cols.map Column.name).Nodup)
    (hc : c ∈ df.cols) (h0 : nullIndices c ≠ []) :
    List.countP (hasTypeCol "Missing Values" c.name)
      (detect_anomalies o df) = 1 := by
  unfold detect_anomalies
  rw [List.countP_append, List.countP_append]
  have h1 : List.countP (hasTypeCol "Missing Values" c.name)
      (missingPass df) = 1 := by
    refine countP_filterMap_single _ _ c
      ⟨mkMissingRecord df.nrows c, missingRecordFor_of_ne h0⟩
      df.cols hc hnd ?_
    intro c' _ r hr
    obtain ⟨_, rfl⟩ := missingRecordFor_shape hr
    rw [hasTypeCol_true_iff]
    constructor
    · rintro ⟨_, hcol⟩; exact hcol
    · intro hcol; exact ⟨rfl, hcol⟩
  have h2 : List.countP (hasTypeCol "Missing Values" c.name)
      (outlierPass o df) = 0 := by
    refine countP_eq_zero_of_types ?_
    intro r hr
    exact hasTypeCol_false_of_type (outlierPass_types hr) (by decide)
  have h3 : List.countP (hasTypeCol "Missing Values" c.name)
      (formatPass df) = 0 := by
    refine countP_eq_zero_of_types ?_
    intro r hr
    exact hasTypeCol_false_of_type (formatPass_types hr) (by decide)
  omega

theorem detect_missing_eq {o : List ℚ → Option (List ℚ)} {df : Dataset}
    {c : Column} (hnd : (df.cols.map Column.name).Nodup) (hc : c ∈ df.cols) :
    ∀ r ∈ detect_anomalies o df, r.type = "Missing Values" →
      r.column = c.name → r = mkMissingRecord df.nrows c := by
  intro r hr htype hcol
  rcases mem_detect_iff.mp hr with hm | ho | hf
  · obtain ⟨c', hc', hrec⟩ := mem_missingPass.mp hm
    obtain ⟨_, rfl⟩ := missingRecordFor_shape hrec
    have : c' = c := name_inj hnd hc' hc hcol
    rw [this]
  · have := outlierPass_types ho
    rw [htype] at this
    exact absurd this (by decide)
  · have := formatPass_types hf
    rw [htype] at this
    exact absurd this (by decide)

theorem detect_no_missing_for {o : List ℚ → Option (List ℚ)} {df : Dataset}
    {c : Column} (hnd : (df.cols.map Column.name).Nodup) (hc : c ∈ df.cols)
    (h0 : nullIndices c = []) :
    ∀ r ∈ detect_anomalies o df,
      ¬(r.type = "Missing Values" ∧ r.column = c.name) := by
  rintro r hr ⟨htype, hcol⟩
  have := detect_missing_eq hnd hc r hr htype hcol
  subst this
  obtain ⟨c', hc', hrec⟩ :=
    mem_missingPass.mp (by
      rcases mem_detect_iff.mp hr with hm | ho | hf
      · exact hm
      · have := outlierPass_types ho; rw [htype] at this; exact absurd this (by decide)
      · have := formatPass_types hf; rw [htype] at this; exact absurd this (by decide))
  obtain ⟨hne', heq'⟩ := missingRecordFor_shape hrec
  have hcols : c' = c := name_inj hnd hc' hc (by
    have : (mkMissingRecord df.nrows c').column = c.name := by
      rw [← heq']; exact hcol
    exact this)
  rw [hcols] at hne'
  exact hne' h0

theorem countP_detect_outlier {o : List ℚ → Option (List ℚ)} {df : Dataset}
    {c : Column} {scores : List ℚ} (hnd : (df.cols.map Column.name).Nodup)
    (hc : c ∈ df.cols) (hnum : isNumericCol c = true)
    (h1 : 1 < (valsOf c).dedup.length)
    (ho : o (valsOf c) = some scores)
    (hfl : flaggedOf (nonNullIdx c) scores ≠ []) :
    List.countP (hasTypeCol "Outlier (Numerical)" c.name)
      (detect_anomalies o df) = 1 := by
  unfold detect_anomalies
  rw [List.countP_append, List.countP_append]
  have h2 : List.countP (hasTypeCol "Outlier (Numerical)" c.name)
      (missingPass df) = 0 := by
    refine countP_eq_zero_of_types ?_
    intro r hr
    exact hasTypeCol_false_of_type (missingPass_types hr) (by decide)
  have h3 : List.countP (hasTypeCol "Outlier (Numerical)" c.name)
      (formatPass df) = 0 := by
    refine countP_eq_zero_of_types ?_
    intro r hr
    exact hasTypeCol_false_of_type (formatPass_types hr) (by decide)
  have h4 : List.countP (hasTypeCol "Outlier (Numerical)" c.name)
      (outlierPass o df) = 1 := by
    unfold outlierPass
    refine countP_filterMap_single _ _ c
      ⟨mkOutlierRecord c (flaggedOf (nonNullIdx c) scores), ?_⟩
      df.cols hc hnd ?_
    · rw [if_pos hnum]
      exact outlierRecordFor_of_conditions h1 ho hfl
    · intro c' _ r hr
      by_cases hn' : isNumericCol c'
      · rw [if_pos hn'] at hr
        obtain ⟨_, _, s', _, _, rfl⟩ := outlierRecordFor_shape hr
        rw [hasTypeCol_true_iff]
        constructor
        · rintro ⟨_, hcol⟩; exact hcol
        · intro hcol; exact ⟨rfl, hcol⟩
      · rw [if_neg hn'] at hr; cases hr
  omega

theorem detect_outlier_eq {o : List ℚ → Option (List ℚ)} {df : Dataset}
    {c : Column} (hnd : (df.cols.map Column.name).Nodup) (hc : c ∈ df.cols) :
    ∀ r ∈ detect_anomalies o df, r.type = "Outlier (Numerical)" →
      r.column = c.name →
      isNumericCol c = true ∧ 1 < (valsOf c).dedup.length ∧
        1 < (nonNullIdx c).length ∧
        ∃ scores, o (valsOf c) = some scores ∧
          flaggedOf (nonNullIdx c) scores ≠ [] ∧
          r = mkOutlierRecord c (flaggedOf (nonNullIdx c) scores) := by
  intro r hr htype hcol
  rcases mem_detect_iff.mp hr with hm | ho | hf
  · have := missingPass_types hm
    rw [htype] at this
    exact absurd this (by decide)
  · obtain ⟨c', hc', hn', hrec⟩ := mem_outlierPass.mp ho
    obtain ⟨hd', hl', s', hs', hfl', heq'⟩ := outlierRecordFor_shape hrec
    have hcols : c' = c := by
      refine name_inj hnd hc' hc ?_
      have : (mkOutlierRecord c' (flaggedOf (nonNullIdx c') s')).column =
          c.name := by rw [← heq']; exact hcol
      exact this
    subst hcols
    exact ⟨hn', hd', hl', s', hs', hfl', heq'⟩
  · have := formatPass_types hf
    rw [htype] at this
    exact absurd this (by decide)

theorem detect_no_outlier_for {o : List ℚ → Option (List ℚ)} {df : Dataset}
    {c : Column} (hnd : (df.cols.map Column.name).Nodup) (hc : c ∈ df.cols)
    (hskip : isNumericCol c = false ∨ (valsOf c).dedup.length ≤ 1 ∨
      (nonNullIdx c).length < 2) :
    ∀ r ∈ detect_anomalies o df,
      ¬(r.type = "Outlier (Numerical)" ∧ r.column = c.name) := by
  rintro r hr ⟨htype, hcol⟩
  obtain ⟨hnum, hd, hl, _, _, _, _⟩ :=
    detect_outlier_eq hnd hc r hr htype hcol
  rcases hskip with h | h | h
  · rw [hnum] at h; cases h
  · omega
  · omega

theorem detect_format_eq {o : List ℚ → Option (List ℚ)} {df : Dataset} :
    ∀ r ∈ detect_anomalies o df, r.type = "Invalid Format (Email)" →
      ∃ c, df.cols.find? (fun c' => c'.name = "email") = some c ∧
        badEmails c ≠ [] ∧ r = mkFormatRecord c := by
  intro r hr htype
  rcases mem_detect_iff.mp hr with hm | ho | hf
  · have := missingPass_types hm
    rw [htype] at this
    exact absurd this (by decide)
  · have := outlierPass_types ho
    rw [htype] at this
    exact absurd this (by decide)
  · exact mem_formatPass.mp hf

theorem countP_detect_format {o : List ℚ → Option (List ℚ)} {df : Dataset}
    {c : Column} (hnd : (df.cols.map Column.name).Nodup)
    (hc : c ∈ df.cols) (hn : c.name = "email") (hb : badEmails c ≠ []) :
    List.countP (hasTypeCol "Invalid Format (Email)" "email")
      (detect_anomalies o df) = 1 := by
  unfold detect_anomalies
  rw [List.countP_append, List.countP_append]
  have h2 : List.countP (hasTypeCol "Invalid Format (Email)" "email")
      (missingPass df) = 0 := by
    refine countP_eq_zero_of_types ?_
    intro r hr
    exact hasTypeCol_false_of_type (missingPass_types hr) (by decide)
  have h3 : List.countP (hasTypeCol "Invalid Format (Email)" "email")
      (outlierPass o df) = 0 := by
    refine countP_eq_zero_of_types ?_
    intro r hr
    exact hasTypeCol_false_of_type (outlierPass_types hr) (by decide)
  have h4 : List.countP (hasTypeCol "Invalid Format (Email)" "email")
      (formatPass df) = 1 := by
    unfold formatPass
    rw [find?_name_email hnd hc hn]
    show List.countP _ (if badEmails c = [] then [] else [mkFormatRecord c]) = 1
    rw [if_neg hb]
    simp [List.countP_cons, hasTypeCol, mkFormatRecord]
  omega

/-! ### Flagged-sample lemmas -/

theorem pairwise_zip_fst {α β : Type} {R : α → α → Prop}
    {l : List α} (l' : List β) (h : l.Pairwise R) :
    (l.zip l').Pairwise (fun a b => R a.1 b.1) := by
  induction l generalizing l' with
  | nil => simp
  | cons x xs ih =>
    cases l' with
    | nil => simp
    | cons y ys =>
      rw [List.zip_cons_cons]
      rcases List.pairwise_cons.mp h with ⟨hx, hxs⟩
      refine List.Pairwise.cons ?_ (ih ys hxs)
      intro p hp
      exact hx p.1 (List.of_mem_zip hp).1

theorem flagged_pairwise (c : Column) (scores : List ℚ) :
    (flaggedOf (nonNullIdx c) scores).Pairwise (fun a b => a.1.1 < b.1.1) := by
  unfold flaggedOf
  exact List.Pairwise.filter _
    (pairwise_zip_fst scores (nonNullIdx_pairwise c))

theorem flagged_mem {c : Column} {scores : List ℚ}
    {pr : (ℕ × ℚ) × ℚ} (h : pr ∈ flaggedOf (nonNullIdx c) scores) :
    pr.1 ∈ nonNullIdx c ∧ pr.2 < percentile5 scores := by
  unfold flaggedOf at h
  rw [List.mem_filter] at h
  obtain ⟨hz, hlt⟩ := h
  refine ⟨?_, by simpa using hlt⟩
  rcases pr with ⟨a, b⟩
  exact (List.of_mem_zip hz).1

theorem flagged_complete {nn : List (ℕ × ℚ)} {scores : List ℚ}
    {pr : (ℕ × ℚ) × ℚ} (hz : pr ∈ nn.zip scores)
    (hlt : pr.2 < percentile5 scores) : pr ∈ flaggedOf nn scores := by
  unfold flaggedOf
  rw [List.mem_filter]
  exact ⟨hz, by simpa using hlt⟩

theorem flagged_lookup {c : Column} {scores : List ℚ}
    {pr : (ℕ × ℚ) × ℚ} (h : pr ∈ flaggedOf (nonNullIdx c) scores) :
    c.cells.get? pr.1.1 = some (some (Value.num pr.1.2)) :=
  nonNullIdx_lookup c pr.1 (flagged_mem h).1

/-! ### Failure-isolation machinery for one oracle failing on one column -/

theorem filter_keep_of_types {cname : String} {l : List AnomalyRecord}
    (h : ∀ r ∈ l, r.type ≠ "Outlier (Numerical)") :
    l.filter (fun r => !hasTypeCol "Outlier (Numerical)" cname r) = l := by
  rw [List.filter_eq_self]
  intro r hr
  rw [hasTypeCol_false_of_type rfl (h r hr)]
  rfl

theorem outlierPass_filter_aux (o o2 : List ℚ → Option (List ℚ))
    (cname : String) :
    ∀ cols : List Column,
      (∀ c' ∈ cols, c'.name ≠ cname → o (valsOf c') = o2 (valsOf c')) →
      (∀ c' ∈ cols, c'.name = cname → o (valsOf c') = none) →
      cols.filterMap
          (fun c => if isNumericCol c then outlierRecordFor o c else none) =
        (cols.filterMap
            (fun c => if isNumericCol c then outlierRecordFor o2 c else none)).filter
          (fun r => !hasTypeCol "Outlier (Numerical)" cname r) := by
  intro cols
  induction cols with
  | nil => intro _ _; rfl
  | cons c0 rest ih =>
    intro hagree hfail
    have ihr := ih (fun c' h hn => hagree c' (List.mem_cons_of_mem _ h) hn)
      (fun c' h hn => hfail c' (List.mem_cons_of_mem _ h) hn)
    by_cases hn0 : isNumericCol c0
    · by_cases hname : c0.name = cname
      · have h0 : outlierRecordFor o c0 = none :=
          outlierRecordFor_none_of_fail
            (hfail c0 (List.mem_cons_self _ _) hname)
      -- the left pass skips `c0`; on the right any record for `c0` is
      -- removed by the filter because its column is `cname`
        rw [List.filterMap_cons_none (by rw [if_pos hn0]; exact h0)]
        cases hrec : outlierRecordFor o2 c0 with
        | none =>
          rw [List.filterMap_cons_none (by rw [if_pos hn0]; exact hrec)]
          exact ihr
        | some r0 =>
          rw [List.filterMap_cons_some (by rw [if_pos hn0]; exact hrec)]
          obtain ⟨_, _, s0, _, _, hr0⟩ := outlierRecordFor_shape hrec
          have htc : hasTypeCol "Outlier (Numerical)" cname r0 = true := by
            rw [hasTypeCol_true_iff, hr0]
            exact ⟨rfl, hname⟩
          rw [List.filter_cons, htc]
          simp only [Bool.not_true, Bool.false_eq_true, if_false]
          exact ihr
      · have heq : outlierRecordFor o c0 = outlierRecordFor o2 c0 := by
          unfold outlierRecordFor
          rw [hagree c0 (List.mem_cons_self _ _) hname]
        cases hrec : outlierRecordFor o2 c0 with
        | none =>
          rw [List.filterMap_cons_none (by rw [if_pos hn0]; exact heq.trans hrec),
            List.filterMap_cons_none (by rw [if_pos hn0]; exact hrec)]
          exact ihr
        | some r0 =>
          rw [List.filterMap_cons_some (by rw [if_pos hn0]; exact heq.trans hrec),
            List.filterMap_cons_some (by rw [if_pos hn0]; exact hrec)]
          obtain ⟨_, _, s0, _, _, hr0⟩ := outlierRecordFor_shape hrec
          have htc : hasTypeCol "Outlier (Numerical)" cname r0 = false := by
            rw [hr0]
            unfold hasTypeCol mkOutlierRecord
            simp [hname]
          rw [List.filter_cons, htc]
          simp only [Bool.not_false, if_true]
          exact congrArg (fun l => r0 :: l) ihr
    · rw [List.filterMap_cons_none (by rw [if_neg hn0]),
        List.filterMap_cons_none (by rw [if_neg hn0])]
      exact ihr

/-! ### Ordering machinery -/

theorem nodup_indexOf_pairwise {α : Type} [DecidableEq α] (l : List α)
    (h : l.Nodup) :
    l.Pairwise (fun a b => l.indexOf a < l.indexOf b) := by
  rw [List.pairwise_iff_get]
  intro i j hij
  rw [List.get_indexOf h i, List.get_indexOf h j]
  exact_mod_cast hij

theorem cols_indexOf_pairwise (df : Dataset)
    (hnd : (df.cols.map Column.name).Nodup) :
    df.cols.Pairwise (fun a b =>
      (df.cols.map Column.name).indexOf a.name <
        (df.cols.map Column.name).indexOf b.name) := by
  have h := nodup_indexOf_pairwise _ hnd
  rw [List.pairwise_map] at h
  exact h

theorem missingPass_pairwise (df : Dataset)
    (hnd : (df.cols.map Column.name).Nodup) :
    (missingPass df).Pairwise (reportLE df) := by
  unfold missingPass
  refine List.Pairwise.filterMap _ ?_ (cols_indexOf_pairwise df hnd)
  intro a a' hlt b hb b' hb'
  rw [Option.mem_def] at hb hb'
  obtain ⟨_, rfl⟩ := missingRecordFor_shape hb
  obtain ⟨_, rfl⟩ := missingRecordFor_shape hb'
  right
  refine ⟨?_, le_of_lt hlt⟩
  rw [passRank_of_missing rfl, passRank_of_missing rfl]

theorem outlierPass_pairwise (o : List ℚ → Option (List ℚ)) (df : Dataset)
    (hnd : (df.cols.map Column.name).Nodup) :
    (outlierPass o df).Pairwise (reportLE df) := by
  unfold outlierPass
  refine List.Pairwise.filterMap _ ?_ (cols_indexOf_pairwise df hnd)
  intro a a' hlt b hb b' hb'
  rw [Option.mem_def] at hb hb'
  by_cases hn : isNumericCol a
  · rw [if_pos hn] at hb
    by_cases hn' : isNumericCol a'
    · rw [if_pos hn'] at hb'
      obtain ⟨_, _, s, _, _, rfl⟩ := outlierRecordFor_shape hb
      obtain ⟨_, _, s', _, _, rfl⟩ := outlierRecordFor_shape hb'
      right
      refine ⟨?_, le_of_lt hlt⟩
      rw [passRank_of_outlier rfl, passRank_of_outlier rfl]
    · rw [if_neg hn'] at hb'; cases hb'
  · rw [if_neg hn] at hb; cases hb

theorem formatPass_pairwise (df : Dataset) :
    (formatPass df).Pairwise (reportLE df) := by
  unfold formatPass
  cases df.cols.find? (fun c' => c'.name = "email") with
  | none => exact List.Pairwise.nil
  | some c =>
    show List.Pairwise (reportLE df)
      (if badEmails c = [] then [] else [mkFormatRecord c])
    by_cases hb : badEmails c = []
    · rw [if_pos hb]; exact List.Pairwise.nil
    · rw [if_neg hb]; exact List.pairwise_singleton _ _

theorem detect_pairwise (o : List ℚ → Option (List ℚ)) (df : Dataset)
    (hnd : (df.cols.map Column.name).Nodup) :
    (detect_anomalies o df).Pairwise (reportLE df) := by
  unfold detect_anomalies
  rw [List.pairwise_append]
  refine ⟨?_, formatPass_pairwise df, ?_⟩
  · rw [List.pairwise_append]
    refine ⟨missingPass_pairwise df hnd, outlierPass_pairwise o df hnd, ?_⟩
    intro a ha b hb
    left
    rw [passRank_of_missing (missingPass_types ha),
      passRank_of_outlier (outlierPass_types hb)]
    omega
  · intro a ha b hb
    left
    rw [passRank_of_format (formatPass_types hb)]
    rcases List.mem_append.mp ha with h | h
    · rw [passRank_of_missing (missingPass_types h)]; omega
    · rw [passRank_of_outlier (outlierPass_types h)]; omega

/-! ### Zero-row datasets -/

theorem nullIndices_of_nil {c : Column} (h : c.cells = []) :
    nullIndices c = [] := by
  unfold nullIndices
  rw [h]
  rfl

theorem nonNullIdx_of_nil {c : Column} (h : c.cells = []) :
    nonNullIdx c = [] := by
  unfold nonNullIdx
  rw [h]
  rfl

theorem badEmails_of_nil {c : Column} (h : c.cells = []) :
    badEmails c = [] := by
  unfold badEmails
  rw [h]
  rfl

theorem detect_empty_of_zero_rows (o : List ℚ → Option (List ℚ))
    (df : Dataset) (hwf : df.WF) (h0 : df.nrows = 0) :
    detect_anomalies o df = [] := by
  obtain ⟨hlen, _⟩ := hwf
  have hnil : ∀ c ∈ df.cols, c.cells = [] := by
    intro c hc
    have := hlen c hc
    rw [h0] at this
    exact List.length_eq_zero.mp this
  unfold detect_anomalies
  have hm : missingPass df = [] := by
    unfold missingPass
    rw [List.filterMap_eq_nil_iff]
    intro c hc
    unfold missingRecordFor
    rw [if_pos (nullIndices_of_nil (hnil c hc))]
  have ho : outlierPass o df = [] := by
    unfold outlierPass
    rw [List.filterMap_eq_nil_iff]
    intro c hc
    by_cases hn : isNumericCol c
    · rw [if_pos hn]
      unfold outlierRecordFor
      have hv : valsOf c = [] := by
        unfold valsOf
        rw [nonNullIdx_of_nil (hnil c hc)]
        rfl
      rw [if_neg (by rw [hv]; decide)]
    · rw [if_neg hn]
  have hf : formatPass df = [] := by
    unfold formatPass
    cases hfind : df.cols.find? (fun c' => c'.name = "email") with
    | none => rfl
    | some c =>
      have hc := List.mem_of_find?_eq_some hfind
      show (if badEmails c = [] then [] else [mkFormatRecord c]) = []
      rw [if_pos (badEmails_of_nil (hnil c hc))]
  rw [hm, ho, hf]
  rfl

theorem positive_rows_of_null {df : Dataset} {c : Column} (hwf : df.WF)
    (hc : c ∈ df.cols) (h : nullIndices c ≠ []) : 0 < df.nrows := by
  obtain ⟨i, hi⟩ := List.exists_mem_of_ne_nil _ h
  have hget := nullIndices_lookup c i hi
  have hlt : i < c.cells.length := by
    rcases List.get?_eq_some.mp hget with ⟨hl, _⟩
    exact hl
  have := hwf.1 c hc
  omega

/-! ### Claim theorems -/

/-- C1: for every column of the dataset, a positive absent-cell count yields
exactly one `Missing Values` record for that column, whose description
states the absolute count and the percentage of total rows rounded to two
decimals, and whose reported sample indices are the first three absent row
indices in ascending order; a zero count yields no `Missing Values` record
for that column. -/
theorem missingValues_spec (o : List ℚ → Option (List ℚ)) (df : Dataset)
    (c : Column) (hwf : df.WF) (hc : c ∈ df.cols) :
    (nullIndices c ≠ [] →
      List.countP (hasTypeCol "Missing Values" c.name)
        (detect_anomalies o df) = 1 ∧
      ∀ r ∈ detect_anomalies o df, r.type = "Missing Values" →
        r.column = c.name →
          r.description =
            toString (nullIndices c).length ++ " (" ++
              fmtPct2 ((((nullIndices c).length : ℚ) / (df.nrows : ℚ)) * 100) ++
              "%) missing values found." ∧
          r.sample_values =
            ((nullIndices c).take 3).map (fun i : ℕ => some (Value.num (i : ℚ))) ∧
          r.original_indices = none) ∧
    (nullIndices c).Pairwise (fun i j => i < j) ∧
    (∀ i ∈ nullIndices c, c.cells.get? i = some none) ∧
    (∀ i, c.cells.get? i = some none → i ∈ nullIndices c) ∧
    (nullIndices c = [] →
      ∀ r ∈ detect_anomalies o df,
        ¬(r.type = "Missing Values" ∧ r.column = c.name)) := by
  have hnd := hwf.2
  refine ⟨?_, nullIndices_pairwise c, nullIndices_lookup c,
    nullIndices_complete c, ?_⟩
  · intro h0
    refine ⟨countP_detect_missing hnd hc h0, ?_⟩
    intro r hr htype hcol
    have heq := detect_missing_eq hnd hc r hr htype hcol
    subst heq
    exact ⟨rfl, rfl, rfl⟩
  · intro h0
    exact detect_no_missing_for hnd hc h0

/-- Witness for C1: the spec's example column with 10 rows and 3 absent
cells yields exactly one `Missing Values` record, and its description is
the string `3 (30.00%) missing values found.`. -/
theorem missingValues_spec_witness :
    dfMissEx.WF ∧ nullIndices colMissEx ≠ [] ∧
    List.countP (hasTypeCol "Missing Values" colMissEx.name)
      (detect_anomalies failOracle dfMissEx) = 1 ∧
    (∀ r ∈ detect_anomalies failOracle dfMissEx,
      r.type = "Missing Values" → r.column = colMissEx.name →
        r.description =
          toString (nullIndices colMissEx).length ++ " (" ++
            fmtPct2 ((((nullIndices colMissEx).length : ℚ) /
              (dfMissEx.nrows : ℚ)) * 100) ++
            "%) missing values found." ∧
        r.sample_values =
          ((nullIndices colMissEx).take 3).map
            (fun i : ℕ => some (Value.num (i : ℚ))) ∧
        r.original_indices = none) ∧
    toString (nullIndices colMissEx).length = "3" ∧
    fmtPct2 ((((nullIndices colMissEx).length : ℚ) /
      (dfMissEx.nrows : ℚ)) * 100) = "30.00" := by
  have h := (missingValues_spec failOracle dfMissEx colMissEx (by decide)
    (by decide)).1 (by decide)
  exact ⟨by decide, by decide, h.1, h.2, by decide, by decide⟩

/-- C3: the outlier detector runs only on numeric columns with more than one
distinct non-absent value and at least two non-absent samples; a column
failing any of these conditions gets no `Outlier (Numerical)` record. -/
theorem outlier_skip_spec (o : List ℚ → Option (List ℚ)) (df : Dataset)
    (c : Column) (hwf : df.WF) (hc : c ∈ df.cols)
    (hskip : isNumericCol c = false ∨ (valsOf c).dedup.length ≤ 1 ∨
      (nonNullIdx c).length < 2) :
    ∀ r ∈ detect_anomalies o df,
      ¬(r.type = "Outlier (Numerical)" ∧ r.column = c.name) :=
  detect_no_outlier_for hwf.2 hc hskip

/-- Witness for C3: a numeric column holding ten copies of 5 yields no
`Outlier (Numerical)` record. -/
theorem outlier_skip_spec_witness :
    dfConstEx.WF ∧ (valsOf colConstEx).dedup.length ≤ 1 ∧
    ∀ r ∈ detect_anomalies negOracle dfConstEx,
      ¬(r.type = "Outlier (Numerical)" ∧ r.column = colConstEx.name) :=
  ⟨by decide, by decide,
   outlier_skip_spec negOracle dfConstEx colConstEx (by decide) (by decide)
     (Or.inr (Or.inl (by decide)))⟩

/-- C7: the pipeline is deterministic: run twice with the same oracle (the
model has a fixed seed, `random_state=42`) on equal dataset snapshots, it
produces equal reports. -/
theorem determinism_spec (o : List ℚ → Option (List ℚ)) (df1 df2 : Dataset)
    (h : df1 = df2) :
    detect_anomalies o df1 = detect_anomalies o df2 := by
  rw [h]

/-- Witness for C7 at the concrete outlier example dataset. -/
theorem determinism_spec_witness :
    detect_anomalies negOracle dfOutEx = detect_anomalies negOracle dfOutEx :=
  determinism_spec negOracle dfOutEx dfOutEx rfl

/-- C10: a zero-row dataset yields the empty report and no error, and the
missing-value percentage division by the row count only ever happens when
the row count is positive (a record requires a nonempty absent-index list,
which forces a positive row count). -/
theorem zero_rows_spec (o : List ℚ → Option (List ℚ)) (df : Dataset)
    (hwf : df.WF) :
    (df.nrows = 0 → detect_anomalies o df = []) ∧
    (∀ c ∈ df.cols, nullIndices c ≠ [] → 0 < df.nrows) :=
  ⟨fun h0 => detect_empty_of_zero_rows o df hwf h0,
   fun _ hc h => positive_rows_of_null hwf hc h⟩

/-- Witness for C10: the zero-row dataset produces the empty report. -/
theorem zero_rows_spec_witness :
    dfZeroRows.WF ∧ detect_anomalies failOracle dfZeroRows = [] :=
  ⟨by decide,
   (zero_rows_spec failOracle dfZeroRows (by decide)).1 rfl⟩

/-- C2: for an eligible numeric column whose model scoring succeeds, the
flagged samples are exactly those with score strictly below the 5th
percentile, and if any are flagged one `Outlier (Numerical)` record is
emitted whose sample values are the first three flagged values in ascending
original-row-index order and whose indices are the flagged samples'
original dataset row indices (looking each index up in the column yields
the reported value). -/
theorem outlier_record_spec (o : List ℚ → Option (List ℚ)) (df : Dataset)
    (c : Column) (scores : List ℚ) (hwf : df.WF) (hc : c ∈ df.cols)
    (hnum : isNumericCol c = true)
    (hdistinct : 1 < (valsOf c).dedup.length)
    (ho : o (valsOf c) = some scores)
    (hflag : flaggedOf (nonNullIdx c) scores ≠ []) :
    List.countP (hasTypeCol "Outlier (Numerical)" c.name)
      (detect_anomalies o df) = 1 ∧
    (∀ r ∈ detect_anomalies o df, r.type = "Outlier (Numerical)" →
      r.column = c.name →
        r.sample_values =
          ((flaggedOf (nonNullIdx c) scores).take 3).map
            (fun pr => some (Value.num pr.1.2)) ∧
        r.original_indices =
          some (((flaggedOf (nonNullIdx c) scores).take 3).map
            (fun pr => pr.1.1))) ∧
    ((flaggedOf (nonNullIdx c) scores).map (fun pr => pr.1.1)).Pairwise
      (fun i j => i < j) ∧
    (∀ pr ∈ flaggedOf (nonNullIdx c) scores,
      c.cells.get? pr.1.1 = some (some (Value.num pr.1.2)) ∧
      pr.2 < percentile5 scores) ∧
    (∀ pr ∈ (nonNullIdx c).zip scores, pr.2 < percentile5 scores →
      pr ∈ flaggedOf (nonNullIdx c) scores) := by
  have hnd := hwf.2
  refine ⟨countP_detect_outlier hnd hc hnum hdistinct ho hflag, ?_, ?_, ?_, ?_⟩
  · intro r hr htype hcol
    obtain ⟨_, _, _, s2, hs2, _, heq⟩ :=
      detect_outlier_eq hnd hc r hr htype hcol
    rw [ho] at hs2
    injection hs2 with hs2
    subst hs2
    rw [heq]
    exact ⟨rfl, rfl⟩
  · exact List.pairwise_map.mpr (flagged_pairwise c scores)
  · intro pr hpr
    exact ⟨flagged_lookup hpr, (flagged_mem hpr).2⟩
  · intro pr hz hlt
    exact flagged_complete hz hlt

/-- Witness for C2: the spec's example column `[1,2,2,3,2,1,2,3,2,100]`
under a concrete oracle (negated values, as an isolation score surrogate)
flags exactly the value 100 at original row index 9. -/
theorem outlier_record_spec_witness :
    dfOutEx.WF ∧ isNumericCol colOutEx = true ∧
    1 < (valsOf colOutEx).dedup.length ∧
    negOracle (valsOf colOutEx) =
      some ((valsOf colOutEx).map (fun q => -q)) ∧
    flaggedOf (nonNullIdx colOutEx)
      ((valsOf colOutEx).map (fun q => -q)) ≠ [] ∧
    List.countP (hasTypeCol "Outlier (Numerical)" colOutEx.name)
      (detect_anomalies negOracle dfOutEx) = 1 ∧
    (∀ r ∈ detect_anomalies negOracle dfOutEx,
      r.type = "Outlier (Numerical)" → r.column = colOutEx.name →
        r.sample_values =
          ((flaggedOf (nonNullIdx colOutEx)
            ((valsOf colOutEx).map (fun q => -q))).take 3).map
              (fun pr => some (Value.num pr.1.2)) ∧
        r.original_indices =
          some (((flaggedOf (nonNullIdx colOutEx)
            ((valsOf colOutEx).map (fun q => -q))).take 3).map
              (fun pr => pr.1.1))) ∧
    ((flaggedOf (nonNullIdx colOutEx)
      ((valsOf colOutEx).map (fun q => -q))).take 3).map
        (fun pr => some (Value.num pr.1.2)) = [some (Value.num 100)] ∧
    ((flaggedOf (nonNullIdx colOutEx)
      ((valsOf colOutEx).map (fun q => -q))).take 3).map
        (fun pr => pr.1.1) = [9] := by
  have h := outlier_record_spec negOracle dfOutEx colOutEx
    ((valsOf colOutEx).map (fun q => -q)) (by decide) (by decide)
    (by decide) (by decide) rfl (by decide)
  exact ⟨by decide, by decide, by decide, rfl, by decide, h.1, h.2.1,
    by decide, by decide⟩

/-- C4 counterexample: in the column named `email` whose cells are
`["a@b.com", NaN]`, every non-absent value conforms to the email pattern,
yet the pipeline emits a `FormatViolation` record (counting the absent
cell, whose string form `nan` fails the pattern) — refuting the claim that
exactly the non-absent failing values are collected. -/
theorem emailFormat_claim_counterexample :
    (∀ cell ∈ colEmailNaN.cells, ∀ v, cell = some v →
      emailMatch (astypeStr (some v)) = true) ∧
    List.countP (hasTypeCol "Invalid Format (Email)" "email")
      (detect_anomalies failOracle dfEmailNaN) = 1 ∧
    (∃ r ∈ detect_anomalies failOracle dfEmailNaN,
      r.type = "Invalid Format (Email)" ∧ r.sample_values = [none] ∧
      r.original_indices = some [1] ∧
      r.description = "1 rows with invalid email format found.") := by
  decide

/-- C4 (amended): for the column named `email`, every value is first
converted to a string (an absent cell becomes the string `nan`, which fails
the pattern, so absent cells are collected too); exactly the converted
values failing the pattern are collected, and if that set is non-empty one
`FormatViolation` record is emitted with the violation count, the first
three non-conforming raw values, and their row indices in original dataset
order. -/
theorem emailFormat_amended_spec (o : List ℚ → Option (List ℚ))
    (df : Dataset) (c : Column) (hwf : df.WF) (hc : c ∈ df.cols)
    (hname : c.name = "email") :
    (badEmails c ≠ [] →
      List.countP (hasTypeCol "Invalid Format (Email)" "email")
        (detect_anomalies o df) = 1 ∧
      ∀ r ∈ detect_anomalies o df, r.type = "Invalid Format (Email)" →
        r.column = "email" ∧
        r.description =
          toString (badEmails c).length ++
            " rows with invalid email format found." ∧
        r.sample_values = ((badEmails c).take 3).map (fun p => p.2) ∧
        r.original_indices =
          some (((badEmails c).take 3).map (fun p => p.1))) ∧
    (∀ p ∈ badEmails c, c.cells.get? p.1 = some p.2 ∧
      emailMatch (astypeStr p.2) = false) ∧
    (∀ i x, c.cells.get? i = some x → emailMatch (astypeStr x) = false →
      (i, x) ∈ badEmails c) ∧
    ((badEmails c).map Prod.fst).Pairwise (fun i j => i < j) ∧
    (badEmails c = [] →
      ∀ r ∈ detect_anomalies o df, r.type ≠ "Invalid Format (Email)") := by
  have hnd := hwf.2
  refine ⟨?_, badEmails_lookup c, badEmails_complete c,
    List.pairwise_map.mpr (badEmails_pairwise c), ?_⟩
  · intro hb
    refine ⟨countP_detect_format hnd hc hname hb, ?_⟩
    intro r hr htype
    obtain ⟨c2, hfind, hb2, heq⟩ := detect_format_eq r hr htype
    rw [find?_name_email hnd hc hname] at hfind
    injection hfind with hfind
    subst hfind
    rw [heq]
    exact ⟨rfl, rfl, rfl, rfl⟩
  · intro hb r hr htype
    obtain ⟨c2, hfind, hb2, _⟩ := detect_format_eq r hr htype
    rw [find?_name_email hnd hc hname] at hfind
    injection hfind with hfind
    subst hfind
    exact hb2 hb

/-- Witness for C4 (amended): the spec's example email column
`["a@b.com","not-an-email","c@d.org"]` yields one record with sample value
`not-an-email` and count 1. -/
theorem emailFormat_amended_spec_witness :
    dfEmailEx.WF ∧ badEmails colEmailEx ≠ [] ∧
    List.countP (hasTypeCol "Invalid Format (Email)" "email")
      (detect_anomalies failOracle dfEmailEx) = 1 ∧
    (∀ r ∈ detect_anomalies failOracle dfEmailEx,
      r.type = "Invalid Format (Email)" →
        r.column = "email" ∧
        r.description =
          toString (badEmails colEmailEx).length ++
            " rows with invalid email format found." ∧
        r.sample_values =
          ((badEmails colEmailEx).take 3).map (fun p => p.2) ∧
        r.original_indices =
          some (((badEmails colEmailEx).take 3).map (fun p => p.1))) ∧
    ((badEmails colEmailEx).take 3).map (fun p => p.2) =
      [some (Value.str "not-an-email")] ∧
    toString (badEmails colEmailEx).length = "1" := by
  have h := (emailFormat_amended_spec failOracle dfEmailEx colEmailEx
    (by decide) (by decide) rfl).1 (by decide)
  exact ⟨by decide, by decide, h.1, h.2, by decide, by decide⟩

/-- C5: a model failure (the caught `ValueError`, modelled as the oracle
returning `none`) on one column only removes that column's
`Outlier (Numerical)` contribution: the report still exists and equals the
no-failure report with exactly that one record filtered out; all other
columns and detectors are untouched. -/
theorem failure_isolation_spec (o o2 : List ℚ → Option (List ℚ))
    (df : Dataset) (c : Column) (hwf : df.WF) (hc : c ∈ df.cols)
    (hagree : ∀ c' ∈ df.cols, c'.name ≠ c.name →
      o (valsOf c') = o2 (valsOf c'))
    (hfail : o (valsOf c) = none) :
    detect_anomalies o df =
      (detect_anomalies o2 df).filter
        (fun r => !hasTypeCol "Outlier (Numerical)" c.name r) := by
  have hnd := hwf.2
  unfold detect_anomalies
  rw [List.filter_append, List.filter_append]
  have hm : (missingPass df).filter
      (fun r => !hasTypeCol "Outlier (Numerical)" c.name r) =
        missingPass df :=
    filter_keep_of_types (fun r hr => by
      rw [missingPass_types hr]; decide)
  have hfp : (formatPass df).filter
      (fun r => !hasTypeCol "Outlier (Numerical)" c.name r) =
        formatPass df :=
    filter_keep_of_types (fun r hr => by
      rw [formatPass_types hr]; decide)
  have hout : outlierPass o df =
      (outlierPass o2 df).filter
        (fun r => !hasTypeCol "Outlier (Numerical)" c.name r) := by
    unfold outlierPass
    refine outlierPass_filter_aux o o2 c.name df.cols hagree ?_
    intro c' hc' hn'
    have hcc : c' = c := name_inj hnd hc' hc hn'
    rw [hcc]
    exact hfail
  rw [hm, hfp, hout]

/-- Witness for C5: with the always-failing oracle the one-column outlier
dataset still yields a (here empty) report, equal to the no-failure report
with its outlier record filtered out. -/
theorem failure_isolation_spec_witness :
    dfOutEx.WF ∧ failOracle (valsOf colOutEx) = none ∧
    detect_anomalies failOracle dfOutEx =
      (detect_anomalies negOracle dfOutEx).filter
        (fun r => !hasTypeCol "Outlier (Numerical)" colOutEx.name r) ∧
    detect_anomalies failOracle dfOutEx = [] ∧
    detect_anomalies negOracle dfOutEx ≠ [] :=
  ⟨by decide, rfl,
   failure_isolation_spec failOracle negOracle dfOutEx colOutEx (by decide)
     (by decide) (by decide) rfl,
   by decide, by decide⟩

/-- C6: a run is all-or-nothing: a well-formed source yields the full
report of its parsed dataset; a missing, unparsable or empty source yields
a single error and no report (`load_data` returns `None` on
`FileNotFoundError`, and any other parse error propagates; the app turns a
`None` dataset into a load error and stops). -/
theorem load_all_or_nothing_spec (o : List ℚ → Option (List ℚ))
    (s : RawSource) :
    (∀ df, s = RawSource.wellFormed df →
      runPipeline o s = Except.ok (detect_anomalies o df)) ∧
    ((s = RawSource.notFound ∨ s = RawSource.unparsable ∨
        s = RawSource.emptySource) →
      ∃ e, runPipeline o s = Except.error e) := by
  constructor
  · rintro df rfl
    rfl
  · rintro (rfl | rfl | rfl)
    · exact ⟨"LoadError", rfl⟩
    · exact ⟨"ParserError", rfl⟩
    · exact ⟨"EmptyDataError", rfl⟩

/-- Witness for C6: an unparsable source yields an error; a well-formed
source yields the report. -/
theorem load_all_or_nothing_spec_witness :
    (∃ e, runPipeline failOracle RawSource.unparsable = Except.error e) ∧
    runPipeline failOracle (RawSource.wellFormed dfZeroRows) =
      Except.ok (detect_anomalies failOracle dfZeroRows) :=
  ⟨(load_all_or_nothing_spec failOracle RawSource.unparsable).2
     (Or.inr (Or.inl rfl)),
   (load_all_or_nothing_spec failOracle
     (RawSource.wellFormed dfZeroRows)).1 dfZeroRows rfl⟩

/-- C8: every record of every report names a column of the dataset, its
sample lists have length at most three, and its contents are truncations
(`take 3`) of the full matching set computed from the dataset, never
fabricated. -/
theorem report_invariants_spec (o : List ℚ → Option (List ℚ))
    (df : Dataset) (r : AnomalyRecord) (hr : r ∈ detect_anomalies o df) :
    r.column ∈ df.cols.map Column.name ∧
    r.sample_values.length ≤ 3 ∧
    (∀ ix, r.original_indices = some ix → ix.length ≤ 3) ∧
    ((∃ c ∈ df.cols, r.column = c.name ∧ nullIndices c ≠ [] ∧
        r = mkMissingRecord df.nrows c) ∨
     (∃ c ∈ df.cols, r.column = c.name ∧ ∃ scores,
        o (valsOf c) = some scores ∧
        flaggedOf (nonNullIdx c) scores ≠ [] ∧
        r = mkOutlierRecord c (flaggedOf (nonNullIdx c) scores)) ∨
     (∃ c ∈ df.cols, r.column = c.name ∧ badEmails c ≠ [] ∧
        r = mkFormatRecord c)) := by
  rcases mem_detect_iff.mp hr with hm | ho | hf
  · obtain ⟨c, hc, hrec⟩ := mem_missingPass.mp hm
    obtain ⟨hne, heq⟩ := missingRecordFor_shape hrec
    subst heq
    refine ⟨List.mem_map_of_mem Column.name hc, ?_, ?_, ?_⟩
    · have hlen : (mkMissingRecord df.nrows c).sample_values.length =
          min 3 (nullIndices c).length := by
        simp [mkMissingRecord]
      omega
    · intro ix hix
      cases hix
    · exact Or.inl ⟨c, hc, rfl, hne, rfl⟩
  · obtain ⟨c, hc, hn, hrec⟩ := mem_outlierPass.mp ho
    obtain ⟨hd, hl, scores, hs, hfl, heq⟩ := outlierRecordFor_shape hrec
    subst heq
    refine ⟨List.mem_map_of_mem Column.name hc, ?_, ?_, ?_⟩
    · have hlen :
          (mkOutlierRecord c (flaggedOf (nonNullIdx c) scores)).sample_values.length =
            min 3 (flaggedOf (nonNullIdx c) scores).length := by
        simp [mkOutlierRecord]
      omega
    · intro ix hix
      have hix2 :
          (mkOutlierRecord c (flaggedOf (nonNullIdx c) scores)).original_indices =
            some ix := hix
      unfold mkOutlierRecord at hix2
      injection hix2 with hix2
      have hlen : ix.length = min 3 (flaggedOf (nonNullIdx c) scores).length := by
        rw [← hix2]
        simp
      omega
    · exact Or.inr (Or.inl ⟨c, hc, rfl, scores, hs, hfl, rfl⟩)
  · obtain ⟨c, hfind, hb, heq⟩ := mem_formatPass.mp hf
    subst heq
    have hc := List.mem_of_find?_eq_some hfind
    have hcn : c.name = "email" := by
      have := List.find?_some hfind
      simpa using this
    refine ⟨?_, ?_, ?_, ?_⟩
    · show "email" ∈ df.cols.map Column.name
      rw [← hcn]
      exact List.mem_map_of_mem Column.name hc
    · have hlen : (mkFormatRecord c).sample_values.length =
          min 3 (badEmails c).length := by
        simp [mkFormatRecord]
      omega
    · intro ix hix
      have hix2 : (mkFormatRecord c).original_indices = some ix := hix
      unfold mkFormatRecord at hix2
      injection hix2 with hix2
      have hlen : ix.length = min 3 (badEmails c).length := by
        rw [← hix2]
        simp
      omega
    · exact Or.inr (Or.inr ⟨c, hc, hcn.symm, hb, rfl⟩)

/-- Witness for C8 at the missing-values example record. -/
theorem report_invariants_spec_witness :
    mkMissingRecord dfMissEx.nrows colMissEx ∈
      detect_anomalies failOracle dfMissEx ∧
    (mkMissingRecord dfMissEx.nrows colMissEx).column ∈
      dfMissEx.cols.map Column.name ∧
    (mkMissingRecord dfMissEx.nrows colMissEx).sample_values.length ≤ 3 := by
  have hmem : mkMissingRecord dfMissEx.nrows colMissEx ∈
      detect_anomalies failOracle dfMissEx := by decide
  have h := report_invariants_spec failOracle dfMissEx _ hmem
  exact ⟨hmem, h.1, h.2.1⟩

/-- C9: the report is exactly the three passes in program order (no
filtering, ranking or deduplication), and is sorted by detector rank and,
within one detector, by column position. -/
theorem report_ordering_spec (o : List ℚ → Option (List ℚ)) (df : Dataset)
    (hwf : df.WF) :
    detect_anomalies o df =
      missingPass df ++ outlierPass o df ++ formatPass df ∧
    (detect_anomalies o df).Pairwise (reportLE df) :=
  ⟨rfl, detect_pairwise o df hwf.2⟩

/-- Witness for C9: a column with both an absent cell and an outlier gets
two records (no deduplication), and the report is sorted. -/
theorem report_ordering_spec_witness :
    dfMixEx.WF ∧
    detect_anomalies negOracle dfMixEx =
      missingPass dfMixEx ++ outlierPass negOracle dfMixEx ++
        formatPass dfMixEx ∧
    (detect_anomalies negOracle dfMixEx).Pairwise (reportLE dfMixEx) ∧
    List.countP (fun r => decide (r.column = "m"))
      (detect_anomalies negOracle dfMixEx) = 2 := by
  have h := report_ordering_spec negOracle dfMixEx (by decide)
  exact ⟨by decide, h.1, h.2, by decide⟩
